import Mathlib

/-!
Verification of the gopartman partition-management engine.

The definitions below are shallow embeddings of the PL/pgSQL functions that
gopartman installs into the target database (src/sql.go) and of the Go
wrappers that invoke them (src/functions.go).  Each section names the source
function and line range it embeds.  Timestamps are modelled as rational
epoch values or as structured calendar dates where calendar arithmetic
matters; bigint values are modelled as Int with Postgres truncated division
and modulus (Int.tdiv / Int.tmod); catalog state (pg_tables, pg_inherits,
partman.part_config) is modelled as explicit record state threaded through
the functions.
-/

namespace GoPartman

/-! ## Naming service: partman.check_name_length

Embeds the table-partition branch (p_table_partition = TRUE) of
partman.check_name_length, sql.go 399-430: the result is
schema.name_p(suffix), with the object name truncated so that the name plus
suffix fit in 61 characters (leaving room for the two marker characters). -/

def check_name_length (p_object_name p_object_schema p_suffix : String) : String :=
  if 61 ≤ p_object_name.length + p_suffix.length then
    p_object_schema ++ "." ++ (p_object_name.take (61 - p_suffix.length)) ++ "_p" ++ p_suffix
  else
    p_object_schema ++ "." ++ p_object_name ++ "_p" ++ p_suffix

/-! ## Id-mode boundary arithmetic

The routing function synthesized by partman.create_function_id computes, for
an inserted value v, the owning partition's lower bound as
v_current_partition_id := NEW.control - (NEW.control % interval)
(sql.go 723 for the id-dynamic body, 682 for the id-static on-demand block,
and the same formula at sql.go 624 and 3473-3475).  Postgres % on bigint
truncates toward zero, which is Int.tmod. -/

def idPartitionLowerBound (v interval : Int) : Int := v - Int.tmod v interval

/-- The bounding CHECK constraint attached to a child table, as a half-open
interval: lo is inclusive, hi exclusive. -/
structure CheckConstraint where
  lo : Int
  hi : Int
deriving DecidableEq

/-- Constraint attached by partman.create_partition_id, sql.go 1665-1666:
CHECK (control >= id AND control < id + interval). -/
def idChildCheckConstraint (id interval : Int) : CheckConstraint :=
  { lo := id, hi := id + interval }

def CheckConstraint.satisfied (c : CheckConstraint) (v : Int) : Prop :=
  c.lo ≤ v ∧ v < c.hi

instance (c : CheckConstraint) (v : Int) : Decidable (c.satisfied v) :=
  inferInstanceAs (Decidable (c.lo ≤ v ∧ v < c.hi))

/-! ## Calendar dates and the quarterly suffix

Quarterly (3-month) partition boundaries are always midnight on the first
day of a quarter, so calendar dates at day granularity are enough to model
them. -/

structure PgDate where
  year : Nat
  month : Nat
  day : Nat
deriving DecidableEq

/-- to_char(ts, 'Q'): Postgres quarter of the year, 1-4 for months 1-12. -/
def PgDate.quarter (t : PgDate) : Nat := (t.month - 1) / 3 + 1

/-- date_trunc('quarter', ts): midnight on the first day of the quarter
containing ts. -/
def dateTruncQuarter (t : PgDate) : PgDate :=
  { year := t.year, month := 3 * ((t.month - 1) / 3) + 1, day := 1 }

/-- The YYYYqQ suffix produced by partman.create_partition_time for
quarterly sets, sql.go 1955-1960: v_year := to_char(v_time, 'YYYY');
v_quarter := to_char(v_time, 'Q'); suffix := v_year || 'q' || v_quarter.
The concatenation and the later split_part on 'q' are modelled structurally
as the two rendered fields, since the year and quarter digit renderings
never contain the letter q. -/
structure QuarterSuffix where
  year : Nat
  quarter : Nat
deriving DecidableEq

def quarterlySuffix (t : PgDate) : QuarterSuffix :=
  { year := t.year, quarter := t.quarter }

/-- Parsing the quarterly suffix back out of a child table name, as done in
partman.run_maintenance (sql.go 3425-3437) and partman.create_partition_time
(sql.go 1904-1916): split_part on 'q', then a CASE mapping quarter 1/2/3/4
to month 01/04/07/10 on day 01; any other quarter value falls through the
CASE and leaves the timestamp NULL, modelled as none. -/
def parseQuarterSuffix (s : QuarterSuffix) : Option PgDate :=
  match s.quarter with
  | 1 => some { year := s.year, month := 1, day := 1 }
  | 2 => some { year := s.year, month := 4, day := 1 }
  | 3 => some { year := s.year, month := 7, day := 1 }
  | 4 => some { year := s.year, month := 10, day := 1 }
  | _ => none

/-! ## Theorems for claims C2 and C4 -/

/-- C2: for every id-mode partition set with interval I > 1 and every
inserted key v >= 0, the routing function's lower bound for v equals
v - (v mod I), and the CHECK constraint created for that bound is the
half-open interval lower <= control < lower + I, which v satisfies. -/
theorem id_boundary_law (I v : Int) (hI : 1 < I) (hv : 0 ≤ v) :
    idPartitionLowerBound v I = v - Int.tmod v I ∧
    (idChildCheckConstraint (idPartitionLowerBound v I) I).satisfied v := by
  refine ⟨rfl, ?_, ?_⟩
  · have h := Int.tmod_nonneg I hv
    simp only [idChildCheckConstraint, idPartitionLowerBound]
    omega
  · have h := Int.tmod_lt_of_pos v (by omega : (0:Int) < I)
    simp only [idChildCheckConstraint, idPartitionLowerBound]
    omega

/-- Witness for C2 at interval 4 and key 10: the lower bound is 8 and 10
lies inside the half-open range of the child constraint. -/
theorem id_boundary_law_witness :
    idPartitionLowerBound 10 4 = 10 - Int.tmod 10 4 ∧
    (idChildCheckConstraint (idPartitionLowerBound 10 4) 4).satisfied 10 :=
  id_boundary_law 4 10 (by decide) (by decide)

/-- C4: for a quarterly boundary timestamp t (a calendar quarter start with
a valid month), generating the YYYYqQ suffix and parsing it back through
the split-on-q code path yields exactly the quarter start used to create
the child. -/
theorem quarterly_suffix_roundtrip (t : PgDate) (hm : t.month ≤ 12)
    (hq : dateTruncQuarter t = t) :
    parseQuarterSuffix (quarterlySuffix t) = some t := by
  obtain ⟨y, m, d⟩ := t
  simp only [dateTruncQuarter, PgDate.mk.injEq] at hq
  obtain ⟨-, hm', hd⟩ := hq
  simp only at hm hm' hd
  subst hd
  have hcases : m = 1 ∨ m = 4 ∨ m = 7 ∨ m = 10 := by omega
  rcases hcases with h | h | h | h <;> subst h <;>
    simp [parseQuarterSuffix, quarterlySuffix, PgDate.quarter]

/-- Witness for C4 at the third quarter of 2024: the child boundary
2024-07-01 renders as 2024q3 and parses back to 2024-07-01. -/
theorem quarterly_suffix_roundtrip_witness :
    parseQuarterSuffix (quarterlySuffix ⟨2024, 7, 1⟩) = some ⟨2024, 7, 1⟩ :=
  quarterly_suffix_roundtrip ⟨2024, 7, 1⟩ (by decide) (by decide)

/-! ## Table materializer: the create_partition loop

partman.create_partition_time (sql.go 1924-2104) and
partman.create_partition_id (sql.go 1627-1764) share the same FOREACH shape
over the requested boundaries: a boundary outside the immediate top parent's
bound range is dropped (CONTINUE, sql.go 1629-1633 and 1963-1968); a
boundary whose computed child name already exists in pg_catalog.pg_tables is
skipped silently (CONTINUE, sql.go 1636-1640 and 1970-1974); otherwise the
child table is created and v_partition_created is set to true (sql.go 1762
and 2102).  The function returns v_partition_created (sql.go 1776 and 2116).
The boundary type, the child-name computation, and the bound check are
parameters so that both functions are instances of the one loop. -/

structure Catalog where
  tables : List String
deriving DecidableEq

def createPartitionAux {β : Type} (childName : β → String) (inBounds : β → Bool) :
    List β → Catalog → Bool → Catalog × Bool
  | [], cat, created => (cat, created)
  | b :: bs, cat, created =>
    if inBounds b = false then
      createPartitionAux childName inBounds bs cat created
    else if childName b ∈ cat.tables then
      createPartitionAux childName inBounds bs cat created
    else
      createPartitionAux childName inBounds bs { tables := cat.tables ++ [childName b] } true

def createPartitionRun {β : Type} (childName : β → String) (inBounds : β → Bool)
    (cat : Catalog) (bs : List β) : Catalog × Bool :=
  createPartitionAux childName inBounds bs cat false

/-- partman.create_partition_id (sql.go 1539-1792) as an instance of the
shared loop: the child name is check_name_length with the id rendered as the
suffix (sql.go 1635), and when the parent is itself a subpartition the
candidate id is dropped if it lies outside sub_id_min..sub_id_max
(sql.go 1629-1633). -/
def create_partition_id (parentTablename parentSchema : String)
    (subBounds : Option (Int × Int)) (cat : Catalog) (ids : List Int) : Catalog × Bool :=
  createPartitionRun
    (fun i => check_name_length parentTablename parentSchema (toString i))
    (fun i => match subBounds with
      | none => true
      | some (lo, hi) => !(i < lo || hi < i))
    cat ids

lemma createPartitionAux_mem_mono {β : Type} (n : β → String) (ib : β → Bool)
    (bs : List β) :
    ∀ (cat : Catalog) (c : Bool) (x : String), x ∈ cat.tables →
      x ∈ (createPartitionAux n ib bs cat c).1.tables := by
  induction bs with
  | nil => intro cat c x hx; exact hx
  | cons b bs ih =>
    intro cat c x hx
    simp only [createPartitionAux]
    by_cases h1 : ib b = false
    · simp only [h1, if_true]; exact ih cat c x hx
    · simp only [h1, if_false]
      by_cases h2 : n b ∈ cat.tables
      · simp only [h2, if_true]; exact ih cat c x hx
      · simp only [h2, if_false]
        exact ih _ true x (by simp [hx])

lemma createPartitionAux_post_mem {β : Type} (n : β → String) (ib : β → Bool)
    (bs : List β) :
    ∀ (cat : Catalog) (c : Bool) (b : β), b ∈ bs → ib b = true →
      n b ∈ (createPartitionAux n ib bs cat c).1.tables := by
  induction bs with
  | nil => intro cat c b hb; exact absurd hb (List.not_mem_nil b)
  | cons b0 bs ih =>
    intro cat c b hb hib
    simp only [createPartitionAux]
    rcases List.mem_cons.mp hb with hb | hb
    · subst hb
      simp only [hib, Bool.true_eq_false, if_false]
      by_cases h2 : n b ∈ cat.tables
      · simp only [h2, if_true]
        exact createPartitionAux_mem_mono n ib bs cat c (n b) h2
      · simp only [h2, if_false]
        exact createPartitionAux_mem_mono n ib bs _ true (n b) (by simp)
    · by_cases h1 : ib b0 = false
      · simp only [h1, if_true]; exact ih cat c b hb hib
      · simp only [h1, if_false]
        by_cases h2 : n b0 ∈ cat.tables
        · simp only [h2, if_true]; exact ih cat c b hb hib
        · simp only [h2, if_false]; exact ih _ true b hb hib

lemma createPartitionAux_skip_all {β : Type} (n : β → String) (ib : β → Bool)
    (bs : List β) :
    ∀ (cat : Catalog) (c : Bool),
      (∀ b ∈ bs, ib b = true → n b ∈ cat.tables) →
      createPartitionAux n ib bs cat c = (cat, c) := by
  induction bs with
  | nil => intro cat c _; rfl
  | cons b bs ih =>
    intro cat c hall
    simp only [createPartitionAux]
    by_cases h1 : ib b = false
    · simp only [h1, if_true]
      exact ih cat c (fun x hx => hall x (List.mem_cons_of_mem b hx))
    · have hib : ib b = true := by
        cases h : ib b
        · exact absurd h h1
        · rfl
      have h2 : n b ∈ cat.tables := hall b (List.mem_cons_self b bs) hib
      simp only [h1, if_false, h2, if_true]
      exact ih cat c (fun x hx => hall x (List.mem_cons_of_mem b hx))

lemma createPartitionAux_nodup {β : Type} (n : β → String) (ib : β → Bool)
    (bs : List β) :
    ∀ (cat : Catalog) (c : Bool), cat.tables.Nodup →
      (createPartitionAux n ib bs cat c).1.tables.Nodup := by
  induction bs with
  | nil => intro cat c h; exact h
  | cons b bs ih =>
    intro cat c hnd
    simp only [createPartitionAux]
    by_cases h1 : ib b = false
    · simp only [h1, if_true]; exact ih cat c hnd
    · simp only [h1, if_false]
      by_cases h2 : n b ∈ cat.tables
      · simp only [h2, if_true]; exact ih cat c hnd
      · simp only [h2, if_false]
        refine ih _ true ?_
        simp [List.nodup_append, hnd, h2]

lemma createPartitionAux_created_iff {β : Type} (n : β → String) (ib : β → Bool)
    (bs : List β) :
    ∀ (cat : Catalog) (c : Bool),
      ((createPartitionAux n ib bs cat c).2 = true ↔
        c = true ∨ ∃ b ∈ bs, ib b = true ∧ n b ∉ cat.tables) := by
  induction bs with
  | nil => intro cat c; simp [createPartitionAux]
  | cons b bs ih =>
    intro cat c
    simp only [createPartitionAux]
    by_cases h1 : ib b = false
    · simp only [h1, if_true]
      rw [ih cat c]
      constructor
      · rintro (h | ⟨x, hx, hibx, hnx⟩)
        · exact Or.inl h
        · exact Or.inr ⟨x, List.mem_cons_of_mem b hx, hibx, hnx⟩
      · rintro (h | ⟨x, hx, hibx, hnx⟩)
        · exact Or.inl h
        · rcases List.mem_cons.mp hx with rfl | hx
          · rw [h1] at hibx; exact absurd hibx (by simp)
          · exact Or.inr ⟨x, hx, hibx, hnx⟩
    · have hib : ib b = true := by
        cases h : ib b
        · exact absurd h h1
        · rfl
      by_cases h2 : n b ∈ cat.tables
      · rw [if_neg h1, if_pos h2, ih cat c]
        constructor
        · rintro (h | ⟨x, hx, hibx, hnx⟩)
          · exact Or.inl h
          · exact Or.inr ⟨x, List.mem_cons_of_mem b hx, hibx, hnx⟩
        · rintro (h | ⟨x, hx, hibx, hnx⟩)
          · exact Or.inl h
          · rcases List.mem_cons.mp hx with rfl | hx
            · exact absurd h2 hnx
            · exact Or.inr ⟨x, hx, hibx, hnx⟩
      · rw [if_neg h1, if_neg h2, ih _ true]
        simp only [true_or, true_iff]
        exact Or.inr ⟨b, List.mem_cons_self b bs, hib, h2⟩

/-- C1: CreatePartition is idempotent.  For any child-name and bound-check
functions, any starting catalog with no duplicate table names and any
boundary list: running the create_partition loop a second time on the
result of the first run changes nothing and returns false (no work done);
the catalog never acquires duplicates, so after the two runs exactly one
child exists per in-bounds boundary; and the first run returns true exactly
when at least one new child table was actually created. -/
theorem create_partition_idempotent {β : Type} (childName : β → String)
    (inBounds : β → Bool) (cat : Catalog) (bs : List β)
    (hnd : cat.tables.Nodup) :
    createPartitionRun childName inBounds
        (createPartitionRun childName inBounds cat bs).1 bs
      = ((createPartitionRun childName inBounds cat bs).1, false) ∧
    (createPartitionRun childName inBounds cat bs).1.tables.Nodup ∧
    (∀ b ∈ bs, inBounds b = true →
      (createPartitionRun childName inBounds cat bs).1.tables.count (childName b) = 1) ∧
    ((createPartitionRun childName inBounds cat bs).2 = true ↔
      ∃ b ∈ bs, inBounds b = true ∧ childName b ∉ cat.tables) := by
  have hnd1 : (createPartitionRun childName inBounds cat bs).1.tables.Nodup :=
    createPartitionAux_nodup childName inBounds bs cat false hnd
  refine ⟨?_, hnd1, ?_, ?_⟩
  · exact createPartitionAux_skip_all childName inBounds bs _ false
      (fun b hb hib => createPartitionAux_post_mem childName inBounds bs cat false b hb hib)
  · intro b hb hib
    exact List.count_eq_one_of_mem hnd1
      (createPartitionAux_post_mem childName inBounds bs cat false b hb hib)
  · rw [createPartitionRun, createPartitionAux_created_iff]
    simp

/-- Witness for C1: creating ids 0 and 10 for a fresh parent (empty catalog,
no subpartition bounds, names via check_name_length as in
create_partition_id), then running the same call again: the second run is a
no-op returning false, each boundary has exactly one child, and the first
run reported that work was done. -/
theorem create_partition_idempotent_witness :
    createPartitionRun (fun i : Int => check_name_length "events" "public" (toString i))
        (fun _ => true)
        (createPartitionRun (fun i : Int => check_name_length "events" "public" (toString i))
          (fun _ => true) ⟨[]⟩ [0, 10]).1 [0, 10]
      = ((createPartitionRun (fun i : Int => check_name_length "events" "public" (toString i))
          (fun _ => true) ⟨[]⟩ [0, 10]).1, false) ∧
    (createPartitionRun (fun i : Int => check_name_length "events" "public" (toString i))
        (fun _ => true) ⟨[]⟩ [0, 10]).1.tables.Nodup ∧
    (∀ b ∈ [(0 : Int), 10], (fun _ : Int => true) b = true →
      (createPartitionRun (fun i : Int => check_name_length "events" "public" (toString i))
          (fun _ => true) ⟨[]⟩ [0, 10]).1.tables.count
        (check_name_length "events" "public" (toString b)) = 1) ∧
    ((createPartitionRun (fun i : Int => check_name_length "events" "public" (toString i))
        (fun _ => true) ⟨[]⟩ [0, 10]).2 = true ↔
      ∃ b ∈ [(0 : Int), 10], (fun _ : Int => true) b = true ∧
        check_name_length "events" "public" (toString b) ∉ ([] : List String)) :=
  create_partition_idempotent
    (fun i : Int => check_name_length "events" "public" (toString i))
    (fun _ => true) ⟨[]⟩ [0, 10] (by decide)

/-! ## Maintenance orchestrator: the premake creation loops

partman.run_maintenance (sql.go 3302-3557).  For a time-based set the pass
computes v_premade_count = abs(round(EXTRACT(epoch FROM age(last, current))
/ EXTRACT(epoch FROM interval))) (sql.go 3443), then loops WHILE the count
is below premake: advance v_next by one interval, create the partition at
v_next, and recompute the count at v_next (sql.go 3444-3470).  Timestamps
are modelled as rational epoch values, age as subtraction and round as
Mathlib round, so the abs-of-rounded-quotient guard is kept exactly. -/

def premadeCount (last current interval : ℚ) : ℕ :=
  (round ((last - current) / interval)).natAbs

def maintTimeLoop (premake : ℕ) (interval current : ℚ) : ℕ → ℚ → ℚ × List ℚ
  | 0, next => (next, [])
  | fuel + 1, next =>
    if premadeCount next current interval < premake then
      ((maintTimeLoop premake interval current fuel (next + interval)).1,
        (next + interval) :: (maintTimeLoop premake interval current fuel (next + interval)).2)
    else (next, [])

/-- The id-mode creation loop of run_maintenance (sql.go 3487-3498):
v_next starts at the last child id plus one interval and the loop runs
WHILE abs((v_next - v_current) / interval) <= premake, creating the
partition at v_next before advancing.  Postgres bigint division truncates
toward zero (Int.tdiv). -/
def maintIdLoop (premake : ℕ) (interval current : Int) : ℕ → Int → Int × List Int
  | 0, next => (next, [])
  | fuel + 1, next =>
    if ((next - current).tdiv interval).natAbs ≤ premake then
      ((maintIdLoop premake interval current fuel (next + interval)).1,
        next :: (maintIdLoop premake interval current fuel (next + interval)).2)
    else (next, [])

/-- The id-mode branch with its inconsistency guard (sql.go 3476-3486): when
the id range of the most recent child is below the current partition id
computed from the observed maximum, creation for the set is skipped with a
warning (none); otherwise the creation loop runs from last + interval. -/
def maintIdBranch (premake : ℕ) (interval current last : Int) (fuel : ℕ) :
    Option (Int × List Int) :=
  if last < current then none
  else some (maintIdLoop premake interval current fuel (last + interval))

lemma premadeCount_aligned (current I : ℚ) (j : ℤ) (hI : I ≠ 0) :
    premadeCount (current + j * I) current I = j.natAbs := by
  unfold premadeCount
  rw [add_sub_cancel_left, mul_div_cancel_right₀ _ hI, round_intCast]

lemma maintTimeLoop_mem (premake : ℕ) (I current : ℚ) (hI : 0 < I) :
    ∀ (fuel : ℕ) (j : ℤ), 1 - (premake : ℤ) ≤ j → ((premake : ℤ) - j).toNat ≤ fuel →
      ∀ k : ℤ, j < k → k ≤ premake →
        current + k * I ∈ (maintTimeLoop premake I current fuel (current + j * I)).2 := by
  intro fuel
  induction fuel with
  | zero =>
    intro j hj hfuel k hk1 hk2
    exfalso; omega
  | succ fuel ih =>
    intro j hj hfuel k hk1 hk2
    have hcnt := premadeCount_aligned current I j (ne_of_gt hI)
    simp only [maintTimeLoop, hcnt]
    have hstep : current + j * I + I = current + (j + 1 : ℤ) * I := by push_cast; ring
    by_cases hcond : j.natAbs < premake
    · rw [if_pos hcond]
      rcases eq_or_lt_of_le (Int.add_one_le_iff.mpr hk1) with hk | hk
      · simp only [List.mem_cons]
        left
        rw [hstep, ← hk]
      · have hmem := ih (j + 1) (by omega) (by omega) k hk hk2
        rw [hstep]
        exact List.mem_cons_of_mem _ hmem
    · rw [if_neg hcond]
      exfalso; omega

lemma maintIdLoop_mem (premake : ℕ) (I current : Int) (hI : 0 < I) :
    ∀ (fuel : ℕ) (j : ℤ), 1 ≤ j → ((premake : ℤ) + 2 - j).toNat ≤ fuel →
      ∀ k : ℤ, j ≤ k → k ≤ premake →
        current + k * I ∈ (maintIdLoop premake I current fuel (current + j * I)).2 := by
  intro fuel
  induction fuel with
  | zero =>
    intro j hj hfuel k hk1 hk2
    exfalso; omega
  | succ fuel ih =>
    intro j hj hfuel k hk1 hk2
    have hred : ((current + j * I - current).tdiv I).natAbs = j.natAbs := by
      rw [add_sub_cancel_left, Int.mul_tdiv_cancel j (ne_of_gt hI)]
    simp only [maintIdLoop, hred]
    have hstep : current + j * I + I = current + (j + 1 : ℤ) * I := by ring
    by_cases hcond : j.natAbs ≤ premake
    · rw [if_pos hcond]
      rcases eq_or_lt_of_le hk1 with hk | hk
      · simp only [List.mem_cons]
        left
        rw [hk]
      · have hmem := ih (j + 1) (by omega) (by omega) k (by omega) hk2
        rw [hstep]
        exact List.mem_cons_of_mem _ hmem
    · rw [if_neg hcond]
      exfalso; omega

/-- Counterexample to C3: a daily set with premake = 2 whose most recent
child boundary lies two intervals behind the current boundary (maintenance
was skipped for two intervals; modelled with interval 1, current boundary 0,
last child boundary -2).  The abs() around the rounded quotient makes
v_premade_count equal to 2 already, so one run_maintenance pass creates no
partition at all and the frontier stays behind the current boundary: zero
(fewer than premake) future partitions exist beyond it, contradicting the
claimed invariant. -/
theorem run_maintenance_premake_counterexample :
    (maintTimeLoop 2 1 0 5 (-2)).2 = [] ∧ (maintTimeLoop 2 1 0 5 (-2)).1 < (0 : ℚ) := by
  have h2 : premadeCount (-2) 0 1 = 2 := by
    have h := premadeCount_aligned 0 1 (-2) one_ne_zero
    norm_num at h
    exact h
  constructor <;> simp only [maintTimeLoop, h2] <;> norm_num

/-- C3 amended: after one run_maintenance pass, at least premake future
partitions exist beyond the current boundary provided the most recent
existing child boundary lies strictly fewer than premake intervals behind
the current boundary (time branch; the abs() guard otherwise makes the pass
create nothing), and, for id mode, provided the inconsistency guard passes,
i.e. the most recent child id is at or beyond the current partition id.
Each required future grid boundary either already lies at or below the most
recent child (pre-existing) or is among the boundaries created by the pass,
one interval at a time from the most recent existing child. -/
theorem run_maintenance_premake_amended (premake : ℕ) :
    (∀ (I current : ℚ) (d : ℤ) (fuel : ℕ), 0 < I →
      1 - (premake : ℤ) ≤ d → ((premake : ℤ) - d).toNat ≤ fuel →
      ∀ k : ℤ, 0 < k → k ≤ premake →
        k ≤ d ∨ current + k * I ∈ (maintTimeLoop premake I current fuel (current + d * I)).2) ∧
    (∀ (I current : Int) (d : ℤ) (fuel : ℕ), 0 < I →
      0 ≤ d → ((premake : ℤ) + 1 - d).toNat ≤ fuel →
      maintIdBranch premake I current (current + d * I) fuel
        = some (maintIdLoop premake I current fuel (current + (d + 1) * I)) ∧
      ∀ k : ℤ, 0 < k → k ≤ premake →
        k ≤ d ∨ current + k * I ∈ (maintIdLoop premake I current fuel (current + (d + 1) * I)).2) := by
  constructor
  · intro I current d fuel hI hd hfuel k hk1 hk2
    by_cases hkd : k ≤ d
    · exact Or.inl hkd
    · exact Or.inr (maintTimeLoop_mem premake I current hI fuel d hd hfuel k (by omega) hk2)
  · intro I current d fuel hI hd hfuel
    constructor
    · unfold maintIdBranch
      rw [if_neg (by nlinarith : ¬current + d * I < current)]
      rw [show current + d * I + I = current + (d + 1) * I by ring]
    · intro k hk1 hk2
      by_cases hkd : k ≤ d
      · exact Or.inl hkd
      · exact Or.inr (maintIdLoop_mem premake I current hI fuel (d + 1) (by omega)
          (by omega) k (by omega) hk2)

/-- Witness for the amended C3 at premake 2, interval 1, current boundary 0
and most recent child exactly at the current boundary: the first future
boundary is among those created by the pass, in both the time and the id
branch. -/
theorem run_maintenance_premake_amended_witness :
    ((1 : ℤ) ≤ 0 ∨ (0 : ℚ) + 1 * 1 ∈ (maintTimeLoop 2 1 0 3 ((0 : ℚ) + 0 * 1)).2) ∧
    ((1 : ℤ) ≤ 0 ∨ (0 : Int) + 1 * 1 ∈ (maintIdLoop 2 1 0 3 ((0 : Int) + (0 + 1) * 1)).2) :=
  ⟨(run_maintenance_premake_amended 2).1 1 0 0 3 (by norm_num) (by decide) (by decide)
      1 (by decide) (by decide),
   ((run_maintenance_premake_amended 2).2 1 0 0 3 (by decide) (by decide) (by decide)).2
      1 (by decide) (by decide)⟩

/-! ## Data migrator: the lock-wait retry loop

partman.partition_data_time, sql.go 3086-3107 (the same pattern appears in
partition_data_id at 2902-2924): when p_lock_wait > 0, v_lock_iter := 0 and
WHILE v_lock_iter <= 5 LOOP: increment v_lock_iter, attempt the
FOR UPDATE NOWAIT lock; on lock_not_available sleep p_lock_wait/5 and
CONTINUE; EXIT WHEN obtained.  If the lock was never obtained the function
returns -1 (sql.go 3104-3106).  The loop guard admits counter values 0..5
and the counter is incremented before the attempt, so attempts are numbered
1..6.  lockWaitGo counts down the remaining guard checks (6 at entry);
outcome n tells whether attempt number n obtains the lock.  The result is
whether the lock was obtained together with the number of attempts made. -/

def lockWaitGo (outcome : ℕ → Bool) : ℕ → Bool × ℕ
  | 0 => (false, 0)
  | r + 1 =>
    if outcome (6 - r) then (true, 1)
    else ((lockWaitGo outcome r).1, (lockWaitGo outcome r).2 + 1)

def lockWaitLoop (outcome : ℕ → Bool) : Bool × ℕ :=
  lockWaitGo outcome 6

/-- The early-return behaviour of the lock phase of one
partition_data_time batch: some (-1) models RETURN -1 on lock-wait
exhaustion, none means the batch proceeds (sql.go 3086-3107). -/
def partition_data_time_lock (lockWait : ℚ) (outcome : ℕ → Bool) : Option Int :=
  if 0 < lockWait then
    if (lockWaitLoop outcome).1 then none else some (-1)
  else none

lemma lockWaitGo_attempts_le (outcome : ℕ → Bool) :
    ∀ r : ℕ, (lockWaitGo outcome r).2 ≤ r := by
  intro r
  induction r with
  | zero => exact Nat.le_refl 0
  | succ r ih =>
    simp only [lockWaitGo]
    by_cases h : outcome (6 - r) = true
    · rw [if_pos h]; exact Nat.le_add_left 1 r
    · rw [if_neg h]; omega

lemma lockWaitGo_all_fail (outcome : ℕ → Bool)
    (hfail : ∀ i, 1 ≤ i → i ≤ 6 → outcome i = false) :
    lockWaitGo outcome 6 = (false, 6) := by
  have h1 := hfail 1 (by omega) (by omega)
  have h2 := hfail 2 (by omega) (by omega)
  have h3 := hfail 3 (by omega) (by omega)
  have h4 := hfail 4 (by omega) (by omega)
  have h5 := hfail 5 (by omega) (by omega)
  have h6 := hfail 6 (by omega) (by omega)
  simp [lockWaitGo, h1, h2, h3, h4, h5, h6]

/-- Counterexample to C5: a run in which the first five lock attempts fail
and the sixth succeeds.  The claim (at most 5 attempts, then abort with -1)
predicts the migration aborts; the code makes a sixth attempt, obtains the
lock, and the batch proceeds (no early return). -/
theorem migrate_lock_wait_counterexample :
    (lockWaitLoop (fun i => decide (i = 6))).2 = 6 ∧
    (lockWaitLoop (fun i => decide (i = 6))).1 = true ∧
    partition_data_time_lock 1 (fun i => decide (i = 6)) = none := by
  refine ⟨by decide, by decide, ?_⟩
  unfold partition_data_time_lock
  rw [if_pos (by decide : (0 : ℚ) < 1)]
  rw [if_pos (by decide : (lockWaitLoop (fun i => decide (i = 6))).1 = true)]

/-- C5 amended: each batch of partition_data_time with lockWaitSeconds > 0
attempts the non-blocking FOR UPDATE NOWAIT lock at most 6 times (the loop
guard admits counter values 0 through 5 with a pre-increment), sleeping
lockWaitSeconds/5 after each failed attempt; if all 6 attempts fail the
whole migration aborts returning the sentinel -1, which is distinct from
the return value 0 meaning no rows were left to move. -/
theorem migrate_lock_wait_amended (w : ℚ) (outcome : ℕ → Bool) (hw : 0 < w)
    (hfail : ∀ i, 1 ≤ i → i ≤ 6 → outcome i = false) :
    (∀ oc : ℕ → Bool, (lockWaitLoop oc).2 ≤ 6) ∧
    lockWaitLoop outcome = (false, 6) ∧
    partition_data_time_lock w outcome = some (-1) ∧ (-1 : Int) ≠ 0 := by
  have hall : lockWaitGo outcome 6 = (false, 6) := lockWaitGo_all_fail outcome hfail
  refine ⟨fun oc => lockWaitGo_attempts_le oc 6, hall, ?_, by decide⟩
  unfold partition_data_time_lock lockWaitLoop
  rw [if_pos hw, hall]
  rfl

/-- Witness for the amended C5: with every attempt failing and a lock wait
of 1 second, the loop makes exactly 6 attempts, never obtains the lock, and
the migration aborts with -1. -/
theorem migrate_lock_wait_amended_witness :
    (∀ oc : ℕ → Bool, (lockWaitLoop oc).2 ≤ 6) ∧
    lockWaitLoop (fun _ => false) = (false, 6) ∧
    partition_data_time_lock 1 (fun _ => false) = some (-1) ∧ (-1 : Int) ≠ 0 :=
  migrate_lock_wait_amended 1 (fun _ => false) (by decide) (fun _ _ _ => rfl)

/-! ## Maintenance orchestrator: set selection and the undo_in_progress guard

partman.run_maintenance builds its work list from partman.part_config
(sql.go 3365-3378): with no target it takes the rows with
use_run_maintenance = true, with a target the row for that parent table.
Inside the creation loop a set whose row has undo_in_progress is skipped
(CONTINUE WHEN v_row.undo_in_progress, sql.go 3383).  The retention pass
(sql.go 3505-3531) selects only rows with a retention value and
undo_in_progress = false, and restricts to the target when one was given.
The per-set creation and drop effects are abstracted as functions on the
set's child list; run_maintenance itself never updates part_config rows. -/

structure PartSet where
  parent_table : String
  children : List String
  retention : Option ℚ
  undo_in_progress : Bool
  use_run_maintenance : Bool
deriving DecidableEq

def selectedForCreation (target : Option String) (s : PartSet) : Bool :=
  match target with
  | none => s.use_run_maintenance
  | some t => s.parent_table == t

def maintainRow (createChildren : PartSet → List String) (target : Option String)
    (s : PartSet) : PartSet :=
  if selectedForCreation target s && !s.undo_in_progress then
    { s with children := createChildren s }
  else s

def retentionRow (dropOld : PartSet → List String) (target : Option String)
    (s : PartSet) : PartSet :=
  if s.retention.isSome && !s.undo_in_progress &&
      (match target with | none => true | some t => s.parent_table == t) then
    { s with children := dropOld s }
  else s

def run_maintenance (createChildren dropOld : PartSet → List String)
    (target : Option String) (sets : List PartSet) : List PartSet :=
  (sets.map (maintainRow createChildren target)).map (retentionRow dropOld target)

/-- C6: a partition set whose config row has undo_in_progress = true is
untouched by one run_maintenance pass: the creation loop skips it, the
retention pass never selects it, and the set (children and config row)
appears unchanged in the result, whatever the creation and drop effects
and whatever target the pass was given. -/
theorem undo_in_progress_guard (createChildren dropOld : PartSet → List String)
    (target : Option String) (sets : List PartSet) (s : PartSet)
    (hs : s ∈ sets) (hundo : s.undo_in_progress = true) :
    maintainRow createChildren target s = s ∧
    retentionRow dropOld target s = s ∧
    s ∈ run_maintenance createChildren dropOld target sets := by
  have hm : maintainRow createChildren target s = s := by
    unfold maintainRow
    rw [if_neg]
    simp [hundo]
  have hr : retentionRow dropOld target s = s := by
    unfold retentionRow
    rw [if_neg]
    simp [hundo]
  refine ⟨hm, hr, ?_⟩
  unfold run_maintenance
  have h1 : maintainRow createChildren target s ∈
      sets.map (maintainRow createChildren target) := List.mem_map_of_mem _ hs
  rw [hm] at h1
  have h2 : retentionRow dropOld target s ∈
      (sets.map (maintainRow createChildren target)).map (retentionRow dropOld target) :=
    List.mem_map_of_mem _ h1
  rw [hr] at h2
  exact h2

/-- Witness for C6: a set under undo with retention configured and
maintenance-eligible settings is returned unchanged by a pass that would
otherwise create a child and drop the oldest one. -/
theorem undo_in_progress_guard_witness :
    maintainRow (fun _ => ["public.t_p3"]) none
        ⟨"public.t", ["public.t_p1", "public.t_p2"], some 1, true, true⟩
      = ⟨"public.t", ["public.t_p1", "public.t_p2"], some 1, true, true⟩ ∧
    retentionRow (fun _ => ["public.t_p2"]) none
        ⟨"public.t", ["public.t_p1", "public.t_p2"], some 1, true, true⟩
      = ⟨"public.t", ["public.t_p1", "public.t_p2"], some 1, true, true⟩ ∧
    (⟨"public.t", ["public.t_p1", "public.t_p2"], some 1, true, true⟩ : PartSet) ∈
      run_maintenance (fun _ => ["public.t_p3"]) (fun _ => ["public.t_p2"]) none
        [⟨"public.t", ["public.t_p1", "public.t_p2"], some 1, true, true⟩] :=
  undo_in_progress_guard (fun _ => ["public.t_p3"]) (fun _ => ["public.t_p2"]) none
    [⟨"public.t", ["public.t_p1", "public.t_p2"], some 1, true, true⟩]
    ⟨"public.t", ["public.t_p1", "public.t_p2"], some 1, true, true⟩
    (List.mem_singleton.mpr rfl) rfl

/-! ## Undo engine

partman.undo_partition (sql.go 3627-3844), the generic undo invoked by the
Go wrapper DB.UndoPartition (functions.go 63-92, which passes the defaults
batchCount 1, keepTable true, lockWait 0).  State tracked: the parent's row
count, the inheritance children in pg_inherits oid order (name, row count,
and the count of the child's own children — which undo_partition never
reads), the routing trigger, the part_config row, and its undo_in_progress
flag.  The p_lock_wait = 0 path is modelled (the Go wrapper's default), so
the lock-retry blocks are never entered; the advisory transaction lock is
the lockHeld parameter. -/

structure ChildTable where
  name : String
  rows : ℕ
  subChildren : ℕ
deriving DecidableEq

structure UndoState where
  parentRows : ℕ
  children : List ChildTable
  hasTrigger : Bool
  hasConfig : Bool
  undoInProgress : Bool
deriving DecidableEq

/-- The batch loop of partman.undo_partition (sql.go 3712-3806): while the
batch count allows, take the first remaining child; if it has no rows,
uninherit it without consuming a batch (CONTINUE, sql.go 3723-3761);
otherwise copy its rows to the parent, uninherit it and consume a batch
(sql.go 3788-3805).  Returns the remaining children, v_undo_count and
v_total (rows moved). -/
def undoLoop (batchCount : ℕ) : List ChildTable → ℕ → ℕ → ℕ → List ChildTable × ℕ × ℕ
  | [], _, undoCount, total => ([], undoCount, total)
  | c :: rest, blc, undoCount, total =>
    if blc < batchCount then
      if c.rows = 0 then undoLoop batchCount rest blc (undoCount + 1) total
      else undoLoop batchCount rest (blc + 1) (undoCount + 1) (total + c.rows)
    else (c :: rest, undoCount, total)

/-- partman.undo_partition (sql.go 3627-3844): return 0 at once if the
advisory lock 'pg_partman undo_partition' is held (sql.go 3654-3658);
otherwise set undo_in_progress (3674), drop the routing trigger and
function (3702, 3706), run the batch loop, remove the part_config row
when v_undo_count stayed 0 (3808-3815), and return v_total (3828).
keepTable only decides whether uninherited children are also dropped as
tables, which the tracked state does not distinguish. -/
def undo_partition (lockHeld : Bool) (batchCount : ℕ) (keepTable : Bool)
    (st : UndoState) : UndoState × Int :=
  if lockHeld then (st, 0)
  else
    let r := undoLoop batchCount st.children 0 0 0
    ({ parentRows := st.parentRows + r.2.2,
       children := r.1,
       hasTrigger := false,
       hasConfig := if r.2.1 = 0 then false else st.hasConfig,
       undoInProgress := true }, (r.2.2 : Int))

/-- DB.UndoPartition (functions.go 63-92): call partman.undo_partition,
then unconditionally DELETE the partman.part_config row for the parent
(functions.go 86-90). -/
def DB_UndoPartition (lockHeld : Bool) (batchCount : ℕ) (keepTable : Bool)
    (st : UndoState) : UndoState :=
  { (undo_partition lockHeld batchCount keepTable st).1 with hasConfig := false }

/-- partman.undo_partition_time (sql.go 4126-4385): same advisory-lock
early return (4159-4163), then — before updating part_config, dropping the
trigger or moving any row — a loop over the children raising an exception
as soon as any child has child tables of its own (4179-4191).  The guard in
partman.undo_partition_id (3909-3921) is identical.  The post-guard batched
move with the default batch interval (one partition interval per batch,
4206-4208) moves whole children like the generic loop does, so it is
modelled by the same state transition. -/
def undo_partition_time (lockHeld : Bool) (batchCount : ℕ) (keepTable : Bool)
    (st : UndoState) : Except String (UndoState × Int) :=
  if lockHeld then .ok (st, 0)
  else if st.children.any (fun c => 0 < c.subChildren) then
    .error "Child table for this parent has child table(s) itself"
  else .ok (undo_partition false batchCount keepTable st)

/-- A parent whose single child is itself a partitioned parent (it has two
children of its own) and still holds 5 rows. -/
def multiLevelState : UndoState :=
  { parentRows := 0,
    children := [{ name := "public.ev_p10", rows := 5, subChildren := 2 }],
    hasTrigger := true,
    hasConfig := true,
    undoInProgress := false }

/-- Counterexample to C7: DB.UndoPartition invokes partman.undo_partition,
which contains no multi-level check: on a parent whose only child is itself
a partitioned parent it proceeds — it removes the trigger, moves the 5 rows
into the parent and uninherits the child — instead of rejecting the
operation and leaving the state unchanged as the claim states. -/
theorem undo_multilevel_counterexample :
    (undo_partition false 1 true multiLevelState).2 = 5 ∧
    (undo_partition false 1 true multiLevelState).1.hasTrigger = false ∧
    (undo_partition false 1 true multiLevelState).1.children = [] ∧
    (undo_partition false 1 true multiLevelState).1 ≠ multiLevelState := by
  decide

/-- C7 amended: the multi-level refusal lives in the typed undo functions,
not in the generic one the Go wrapper calls.  partman.undo_partition_time
(and identically undo_partition_id) raises an exception — before removing
the trigger or moving any rows, so no state transition is produced — as
soon as any child of the parent has child tables of its own; the generic
partman.undo_partition invoked by DB.UndoPartition performs no such check
and proceeds on the same state (in particular it drops the trigger). -/
theorem undo_multilevel_amended (batchCount : ℕ) (keepTable : Bool)
    (st : UndoState) (hsub : st.children.any (fun c => 0 < c.subChildren) = true) :
    undo_partition_time false batchCount keepTable st
      = .error "Child table for this parent has child table(s) itself" ∧
    (undo_partition false batchCount keepTable st).1.hasTrigger = false := by
  constructor
  · unfold undo_partition_time
    rw [if_neg (by simp), if_pos hsub]
  · unfold undo_partition
    rw [if_neg (by simp)]

/-- Witness for the amended C7 on the concrete multi-level state: the typed
undo refuses, the generic undo proceeds and drops the trigger. -/
theorem undo_multilevel_amended_witness :
    undo_partition_time false 1 true multiLevelState
      = .error "Child table for this parent has child table(s) itself" ∧
    (undo_partition false 1 true multiLevelState).1.hasTrigger = false :=
  undo_multilevel_amended 1 true multiLevelState (by decide)

/-- A parent with two non-empty children (config row present, trigger on). -/
def twoChildState : UndoState :=
  { parentRows := 0,
    children := [{ name := "public.ev_p0", rows := 5, subChildren := 0 },
                 { name := "public.ev_p10", rows := 3, subChildren := 0 }],
    hasTrigger := true,
    hasConfig := true,
    undoInProgress := false }

/-- Counterexample to C8: an Undo invocation (Go DB.UndoPartition, default
batchCount 1) on a parent with two non-empty children processes one child
and leaves the other behind, yet the PartitionSetConfig row is removed —
the Go wrapper deletes it unconditionally after partman.undo_partition
returns — contradicting the claim that the row is removed only when no
child tables remain. -/
theorem undo_config_counterexample :
    (DB_UndoPartition false 1 true twoChildState).children ≠ [] ∧
    (DB_UndoPartition false 1 true twoChildState).hasConfig = false := by
  decide

lemma undoLoop_count_mono (batchCount : ℕ) :
    ∀ (children : List ChildTable) (blc undoCount total : ℕ),
      undoCount ≤ (undoLoop batchCount children blc undoCount total).2.1 := by
  intro children
  induction children with
  | nil =>
    intro blc undoCount total
    exact Nat.le_refl undoCount
  | cons c rest ih =>
    intro blc undoCount total
    unfold undoLoop
    by_cases h : blc < batchCount
    · rw [if_pos h]
      by_cases hc : c.rows = 0
      · rw [if_pos hc]
        exact Nat.le_trans (Nat.le_succ undoCount) (ih blc (undoCount + 1) total)
      · rw [if_neg hc]
        exact Nat.le_trans (Nat.le_succ undoCount) (ih (blc + 1) (undoCount + 1) (total + c.rows))
    · rw [if_neg h]

lemma undoLoop_count_zero_iff (batchCount : ℕ) (children : List ChildTable)
    (hbc : 0 < batchCount) :
    ((undoLoop batchCount children 0 0 0).2.1 = 0 ↔ children = []) := by
  cases children with
  | nil => simp [undoLoop]
  | cons c rest =>
    constructor
    · intro h
      exfalso
      have hmono1 := undoLoop_count_mono batchCount rest 0 1 0
      have hmono2 := undoLoop_count_mono batchCount rest 1 1 c.rows
      unfold undoLoop at h
      rw [if_pos hbc] at h
      by_cases hc : c.rows = 0
      · rw [if_pos hc] at h
        simp only [Nat.zero_add] at h
        omega
      · rw [if_neg hc] at h
        simp only [Nat.zero_add] at h
        omega
    · intro h
      exact absurd h (List.cons_ne_nil c rest)

/-- C8 amended: partman.undo_partition removes the part_config row exactly
when it processed zero child tables in the call (with a positive batch
count, exactly when no children existed when the loop first ran); a call
that processes the last remaining child therefore leaves the row for a
later call.  DB.UndoPartition then deletes the row unconditionally, so at
the Go level the row is always gone after an Undo invocation, children
remaining or not. -/
theorem undo_config_cleanup_amended (batchCount : ℕ) (keepTable : Bool)
    (st : UndoState) (hbc : 0 < batchCount) :
    ((undo_partition false batchCount keepTable st).1.hasConfig = false ↔
      st.children = [] ∨ st.hasConfig = false) ∧
    (DB_UndoPartition false batchCount keepTable st).hasConfig = false := by
  refine ⟨?_, rfl⟩
  unfold undo_partition
  rw [if_neg (by simp)]
  simp only
  by_cases h : (undoLoop batchCount st.children 0 0 0).2.1 = 0
  · rw [if_pos h]
    simp [(undoLoop_count_zero_iff batchCount st.children hbc).mp h]
  · rw [if_neg h]
    have : ¬st.children = [] := fun hc =>
      h ((undoLoop_count_zero_iff batchCount st.children hbc).mpr hc)
    simp [this]

/-- Witness for the amended C8 on the two-child state: children remain
after the batch, the SQL function keeps the config row (the iff reduces to
the remaining-children case), and the Go wrapper has removed it. -/
theorem undo_config_cleanup_amended_witness :
    ((undo_partition false 1 true twoChildState).1.hasConfig = false ↔
      twoChildState.children = [] ∨ twoChildState.hasConfig = false) ∧
    (DB_UndoPartition false 1 true twoChildState).hasConfig = false :=
  undo_config_cleanup_amended 1 true twoChildState (by decide)

/-- A parent with no children left (config row present, trigger on). -/
def noChildState : UndoState :=
  { parentRows := 7,
    children := [],
    hasTrigger := true,
    hasConfig := true,
    undoInProgress := false }

/-- C10: when the advisory lock 'pg_partman undo_partition' is already held
by a concurrent transaction, undo_partition returns 0 immediately and the
state is completely unchanged — no trigger removal, no row movement, no
config change; and the same return value 0 is produced by a normal
(lock-free) run on a parent with no child tables left, a run that does
change state (it removes the trigger and the config row) — so the result
value alone cannot distinguish a skipped run from a completed one. -/
theorem undo_partition_advisory_lock_skip (batchCount : ℕ) (keepTable : Bool)
    (st : UndoState) :
    undo_partition true batchCount keepTable st = (st, 0) ∧
    (undo_partition false 1 true noChildState).2 = 0 ∧
    (undo_partition false 1 true noChildState).1.hasTrigger = false ∧
    (undo_partition false 1 true noChildState).1.hasConfig = false ∧
    (undo_partition false 1 true noChildState).1 ≠ noChildState := by
  refine ⟨rfl, by decide, by decide, by decide, by decide⟩

/-! ## Router synthesizer: where the on-demand creation block is emitted

partman.create_function_id (sql.go 525-786) synthesizes the trigger
function for id sets: a static decision ladder for id-static (599-706) and
a computed target for id-dynamic (708-761); in BOTH branches the body gets
the opportunistic on-demand creation block appended exactly when
v_run_maint IS FALSE (680-695 and 732-750).  partman.create_function_time
(sql.go 797-1045) synthesizes time triggers — static ladder (865-942),
dynamic (944-991), custom lookup (993-1020) — and contains no on-demand
creation block in any branch (it does not even read use_run_maintenance).
The synthesized function is abstracted to the routing strategy of its body
plus whether the on-demand block is present. -/

inductive PartitionType
  | timeStatic | timeDynamic | timeCustom | idStatic | idDynamic
deriving DecidableEq

inductive RoutingStrategy
  | staticLadder | dynamicComputed | customLookup
deriving DecidableEq

structure TriggerFunction where
  strategy : RoutingStrategy
  onDemandCreation : Bool
deriving DecidableEq

/-- partman.create_function_id (sql.go 525-786).  The config lookup is
restricted to id types (574-575) and raises when nothing is found (577-579),
modelled as none. -/
def create_function_id (ptype : PartitionType) (useRunMaintenance : Bool) :
    Option TriggerFunction :=
  match ptype with
  | .idStatic => some { strategy := .staticLadder, onDemandCreation := !useRunMaintenance }
  | .idDynamic => some { strategy := .dynamicComputed, onDemandCreation := !useRunMaintenance }
  | _ => none

/-- partman.create_function_time (sql.go 797-1045).  The config lookup is
restricted to time types (841-842); the synthesized bodies never contain
the on-demand creation block and the function never reads
use_run_maintenance. -/
def create_function_time (ptype : PartitionType) (useRunMaintenance : Bool) :
    Option TriggerFunction :=
  match ptype with
  | .timeStatic => some { strategy := .staticLadder, onDemandCreation := false }
  | .timeDynamic => some { strategy := .dynamicComputed, onDemandCreation := false }
  | .timeCustom => some { strategy := .customLookup, onDemandCreation := false }
  | _ => none

/-- The routing function a partition set of the given type gets, dispatching
to the id or time synthesizer as the callers do. -/
def create_function (ptype : PartitionType) (useRunMaintenance : Bool) :
    Option TriggerFunction :=
  match ptype with
  | .idStatic | .idDynamic => create_function_id ptype useRunMaintenance
  | _ => create_function_time ptype useRunMaintenance

/-- create_parent's validation of p_use_run_maintenance (sql.go 1138-1149):
an explicit false is rejected for time types; with no explicit value time
types default to true and id types to false. -/
def resolveUseRunMaintenance (ptype : PartitionType) (p : Option Bool) :
    Except String Bool :=
  match p with
  | some b =>
    if b = false ∧ (ptype = .timeStatic ∨ ptype = .timeDynamic ∨ ptype = .timeCustom) then
      .error "p_run_maintenance cannot be set to false for time based partitioning"
    else .ok b
  | none =>
    match ptype with
    | .timeStatic | .timeDynamic | .timeCustom => .ok true
    | .idStatic | .idDynamic => .ok false

/-- The creation loop inside the emitted on-demand block (sql.go 686-693
for id-static, 741-748 for id-dynamic): v_next starts at the last child id
plus one interval and the loop runs WHILE (v_next - v_current) / interval
<= premake, creating the partition at v_next before advancing (no abs here,
unlike the run_maintenance id loop). -/
def onDemandLoop (premake : ℕ) (interval current : Int) : ℕ → Int → List Int
  | 0, _ => []
  | fuel + 1, next =>
    if (next - current).tdiv interval ≤ (premake : Int) then
      next :: onDemandLoop premake interval current fuel (next + interval)
    else []

lemma onDemandLoop_mem (premake : ℕ) (I current : Int) (hI : 0 < I) :
    ∀ (fuel : ℕ) (j : ℤ), 1 ≤ j → ((premake : ℤ) + 2 - j).toNat ≤ fuel →
      ∀ k : ℤ, j ≤ k → k ≤ premake →
        current + k * I ∈ onDemandLoop premake I current fuel (current + j * I) := by
  intro fuel
  induction fuel with
  | zero =>
    intro j hj hfuel k hk1 hk2
    exfalso; omega
  | succ fuel ih =>
    intro j hj hfuel k hk1 hk2
    have hred : (current + j * I - current).tdiv I = j := by
      rw [add_sub_cancel_left, Int.mul_tdiv_cancel j (ne_of_gt hI)]
    simp only [onDemandLoop, hred]
    have hstep : current + j * I + I = current + (j + 1 : ℤ) * I := by ring
    by_cases hcond : j ≤ (premake : Int)
    · rw [if_pos hcond]
      rcases eq_or_lt_of_le hk1 with hk | hk
      · simp only [List.mem_cons]
        left
        rw [hk]
      · have hmem := ih (j + 1) (by omega) (by omega) k (by omega) hk2
        rw [hstep]
        exact List.mem_cons_of_mem _ hmem
    · rw [if_neg hcond]
      exfalso; omega

/-- Counterexample to C9: an id-dynamic partition set with
use_run_maintenance = false gets the on-demand creation block in its
synthesized routing function even though it is not a static-mode set,
refuting the claim that the block is emitted exactly for static mode and
for no other mode.  (A time-static set, the claim's other static mode,
never gets the block; create_parent refuses to disable scheduled
maintenance for time sets in the first place.) -/
theorem on_demand_emission_counterexample :
    create_function .idDynamic false
      = some { strategy := .dynamicComputed, onDemandCreation := true } ∧
    create_function .timeStatic true
      = some { strategy := .staticLadder, onDemandCreation := false } ∧
    resolveUseRunMaintenance .timeStatic (some false)
      = .error "p_run_maintenance cannot be set to false for time based partitioning" := by
  exact ⟨rfl, rfl, rfl⟩

/-- C9 amended: the synthesized routing function contains the opportunistic
on-demand creation block exactly when the set is id mode (id-static or
id-dynamic) and use_run_maintenance is false; time-mode routing functions
never contain it, and create_parent rejects disabling scheduled maintenance
for time sets.  The block's creation loop, starting from the frontier (last
child id plus one interval), creates every missing boundary up to premake
intervals beyond the partition owning the triggering value. -/
theorem on_demand_emission_amended :
    (∀ (ptype : PartitionType) (useRunMaint : Bool) (tf : TriggerFunction),
      create_function ptype useRunMaint = some tf →
      (tf.onDemandCreation = true ↔
        (ptype = .idStatic ∨ ptype = .idDynamic) ∧ useRunMaint = false)) ∧
    (∀ (ptype : PartitionType),
      (ptype = .timeStatic ∨ ptype = .timeDynamic ∨ ptype = .timeCustom) →
      resolveUseRunMaintenance ptype (some false)
        = .error "p_run_maintenance cannot be set to false for time based partitioning") ∧
    (∀ (premake : ℕ) (I current : Int) (d : ℤ) (fuel : ℕ), 0 < I → 0 ≤ d →
      ((premake : ℤ) + 1 - d).toNat ≤ fuel →
      ∀ k : ℤ, d < k → k ≤ premake →
        current + k * I ∈ onDemandLoop premake I current fuel (current + (d + 1) * I)) := by
  refine ⟨?_, ?_, ?_⟩
  · intro ptype useRunMaint tf htf
    cases ptype <;> cases useRunMaint <;>
      simp only [create_function, create_function_id, create_function_time,
        Option.some.injEq] at htf <;>
      simp [← htf]
  · intro ptype hp
    rcases hp with rfl | rfl | rfl <;> rfl
  · intro premake I current d fuel hI hd hfuel k hk1 hk2
    exact onDemandLoop_mem premake I current hI fuel (d + 1) (by omega) (by omega)
      k (by omega) hk2

/-- Witness for the amended C9: the id-static function with maintenance
disabled carries the block and with maintenance enabled does not; time sets
cannot disable maintenance; and on a concrete frontier the block's loop
creates the first missing boundary. -/
theorem on_demand_emission_amended_witness :
    (({ strategy := .staticLadder, onDemandCreation := true }
        : TriggerFunction).onDemandCreation = true ↔
      ((.idStatic : PartitionType) = .idStatic ∨ (.idStatic : PartitionType) = .idDynamic) ∧
        false = false) ∧
    resolveUseRunMaintenance .timeDynamic (some false)
      = .error "p_run_maintenance cannot be set to false for time based partitioning" ∧
    ((0 : Int) + 1 * 2 ∈ onDemandLoop 2 2 0 4 ((0 : Int) + (0 + 1) * 2)) :=
  ⟨(on_demand_emission_amended.1 .idStatic false
      { strategy := .staticLadder, onDemandCreation := true } rfl),
   on_demand_emission_amended.2.1 .timeDynamic (Or.inr (Or.inl rfl)),
   on_demand_emission_amended.2.2 2 2 0 0 4 (by decide) (by decide) (by decide)
     1 (by decide) (by decide)⟩

end GoPartman
